import Mathlib

/-!
Shallow embedding of the storage layer of the `context-memory-mcp-server`
repository (`src/dist/storage.js`, compiled from the TypeScript in
`src/unnamed/part_003`).  The SQLite database is modelled as a list of rows
in storage (insertion) order; each operation of the `MemoryStore` class is
translated into a pure Lean function.  JavaScript exceptions (TypeError on
`mapRow`, SQL errors from `json_each` on unparseable text) are modelled by
`Option`, with `none` standing for a thrown error.  `new Date().toISOString()`
and `uuidv4()` are passed in as explicit parameters.
-/

namespace ContextMemory

/-- Drop leading and trailing whitespace of a character list. -/
def trimL (l : List Char) : List Char :=
  ((l.dropWhile Char.isWhitespace).reverse.dropWhile Char.isWhitespace).reverse

/-- Model of JavaScript `String.prototype.trim`: drop leading and trailing
whitespace characters (`Char.isWhitespace` approximates the JS whitespace
set; all examples in the spec are ASCII). -/
def strTrim (s : String) : String :=
  ⟨trimL s.data⟩

/-- Model of JavaScript `String.prototype.toLowerCase` (ASCII case folding
via `Char.toLower`; all tags in the spec examples are ASCII). -/
def strLower (s : String) : String :=
  ⟨s.data.map Char.toLower⟩

/-- Lexicographic ≤ on character lists by code point.  This is the order
SQLite's BINARY collation gives TEXT values (UTF-8 byte order coincides
with code-point order). -/
def charListLe : List Char → List Char → Bool
  | [], _ => true
  | _ :: _, [] => false
  | a :: as, b :: bs =>
    if a.val.toNat < b.val.toNat then true
    else if b.val.toNat < a.val.toNat then false
    else charListLe as bs

/-- SQLite TEXT comparison `a <= b` under the default BINARY collation. -/
def strLe (a b : String) : Bool := charListLe a.data b.data

/-- Function `normalizeTags` from `storage.js`: trim each tag, drop entries that
become empty, and deduplicate case-insensitively, keeping the first-seen
order and first-seen casing.  `seen` is the accumulator of lower-cased keys
already emitted (the `Set` in the source). -/
def normalizeTagsAux : List String → List String → List String
  | [], _ => []
  | t :: rest, seen =>
    if (strTrim t).isEmpty then normalizeTagsAux rest seen
    else if strLower (strTrim t) ∈ seen then normalizeTagsAux rest seen
    else strTrim t :: normalizeTagsAux rest (strLower (strTrim t) :: seen)

/-- Function `normalizeTags(tags)` for an actual array argument.  The source's
`!tags || tags.length === 0` early return coincides with
`normalizeTagsAux [] seen = []`; the `undefined` case is handled at each
call site (`Option.getD []`). -/
def normalizeTags (tags : List String) : List String :=
  normalizeTagsAux tags []

/-- JSON values, as produced by `JSON.parse` on the TEXT columns.  Numbers
are modelled as integers (the only numbers the store writes are clamped
integer importances; JSON numeric fidelity is irrelevant to the claims). -/
inductive Json where
  | null
  | bool (b : Bool)
  | num (n : Int)
  | str (s : String)
  | arr (xs : List Json)
  | obj (fields : List (String × Json))

/-- Content of a TEXT column holding serialized JSON.  `empty` is the empty
string (falsy in JS, and rejected by `json_each`); `malformed` is non-empty
text on which `JSON.parse` throws; `json v` is text that parses to `v`. -/
inductive StoredText where
  | empty
  | malformed
  | json (v : Json)

/-- Function `parseJson(value, fallback)` from `storage.js`: falsy text (empty
string) and text on which `JSON.parse` throws both yield the fallback. -/
def parseJson (value : StoredText) (fallback : Json) : Json :=
  match value with
  | .empty => fallback
  | .malformed => fallback
  | .json v => v

/-- JavaScript `value ?? {}` inside `serializeJson`: `null`/`undefined`
become the empty object; the result is then `JSON.stringify`-ed, which our
model represents by the value itself. -/
def serializeJsonVal : Json → Json
  | .null => .obj []
  | v => v

/-- JavaScript nullish coalescing `x ?? d` for an optional JSON value
(`none` = `undefined`, `some .null` = `null`). -/
def jsNullish (x : Option Json) (d : Json) : Json :=
  match x with
  | none => d
  | some .null => d
  | some v => v

/-- JavaScript truthiness of a parsed JSON value. -/
def jsFalsy : Json → Bool
  | .null => true
  | .bool b => !b
  | .num n => n == 0
  | .str s => s.isEmpty
  | .arr _ => false
  | .obj _ => false

/-- JavaScript `v.length === 0` for a parsed JSON value: arrays and strings
have a numeric `length`; a plain object only has one if it carries a
`"length"` key (first occurrence; duplicate keys do not arise from the
store's own writes); for numbers/booleans/null, `undefined === 0` is
false. -/
def jsLengthEqZero : Json → Bool
  | .arr xs => xs.isEmpty
  | .str s => s.isEmpty
  | .obj fields => match fields.lookup "length" with
    | some (.num 0) => true
    | _ => false
  | _ => false

/-- Decoder `asStr j` succeeds only on JSON strings; on anything else the source's
`tag.trim()` call would throw a TypeError. -/
def asStr : Json → Option String
  | .str s => some s
  | _ => none

/-- Model of `rows.map(...)` with exception propagation: `none` as soon as one
element fails. -/
def optMapM (f : α → Option β) : List α → Option (List β)
  | [] => some []
  | a :: l =>
    match f a with
    | none => none
    | some b => (optMapM f l).map (b :: ·)

/-- Function `normalizeTags` applied to a dynamically-typed parsed JSON value, as in
`mapRow`.  Falsy values and values whose `length` is strictly equal to `0`
return `[]`; a non-empty array is mapped over (`tag.trim()` throwing —
`none` — on any non-string element); any other value has no `.map` method
and throws. -/
def jsNormalizeTags (v : Json) : Option (List String) :=
  if jsFalsy v || jsLengthEqZero v then some []
  else
    match v with
    | .arr xs => (optMapM asStr xs).map normalizeTags
    | _ => none

/-- Clamp `Math.max(0, Math.min(10, i))`. -/
def clampImportance (i : Int) : Int := max 0 (min 10 i)

/-- A row of the `memories` table, in declared column types: `importance`
is an INTEGER column (nullable), `tags` and `metadata` are TEXT columns
holding serialized JSON. -/
structure Row where
  id : String
  title : Option String
  content : String
  importance : Option Int
  tags : StoredText
  metadata : StoredText
  created_at : String
  updated_at : String

/-- A `MemoryRecord` as returned to callers. -/
structure Record where
  id : String
  title : Option String
  content : String
  importance : Option Int
  tags : List String
  metadata : Json
  createdAt : String
  updatedAt : String

/-- Method `mapRow` with the tag list already decoded: the remaining fields are
copied, importance is defensively re-clamped (the `Number(row.importance)`
branch of the source is unreachable for the INTEGER-typed column, which
yields a JS number or null), metadata falls back to `{}` on unparseable
text. -/
def mapRowCore (r : Row) (tags : List String) : Record :=
  { id := r.id
    title := r.title
    content := r.content
    importance := r.importance.map clampImportance
    tags := tags
    metadata := parseJson r.metadata (Json.obj [])
    createdAt := r.created_at
    updatedAt := r.updated_at }

/-- Method `mapRow(row)`: `row.tags` comes out of SQLite as TEXT, never an array,
so the `Array.isArray` branch of the source is unreachable and the tags are
`normalizeTags(parseJson(row.tags, []))`; `none` models the TypeError this
throws on well-formed JSON of an unexpected shape. -/
def jsMapRow (r : Row) : Option Record :=
  (jsNormalizeTags (parseJson r.tags (Json.arr []))).map (mapRowCore r)

/-- Method `getMemory(id)`: `SELECT * FROM memories WHERE id = ?` returns the
first row in storage order with that id.  Result: `none` = the call threw
(`mapRow` failed), `some none` = not found (JS `null`), `some (some rec)` =
found. -/
def getMemory (db : List Row) (id : String) : Option (Option Record) :=
  match db.find? (fun r => r.id == id) with
  | none => some none
  | some row =>
    match jsMapRow row with
    | none => none
    | some rec => some (some rec)

/-- Input of `addMemory` (`MemoryCreateInput`): optional fields are
`undefined` when `none`. -/
structure CreateInput where
  title : Option String := none
  content : String
  importance : Option Int := none
  tags : Option (List String) := none
  metadata : Option Json := none

/-- Method `addMemory(input)`: normalizes tags, clamps importance, assigns the
given fresh `id` and timestamp `now` to both timestamps, appends one row
(INSERT), and returns the record constructed from the same normalized
values (not a re-read). -/
def addMemory (id now : String) (input : CreateInput) (db : List Row) :
    Record × List Row :=
  let normalizedTags := normalizeTags (input.tags.getD [])
  let impCol := input.importance.map clampImportance
  let meta := jsNullish input.metadata (Json.obj [])
  let row : Row :=
    { id := id
      title := input.title
      content := input.content
      importance := impCol
      tags := .json (.arr (normalizedTags.map .str))
      metadata := .json meta
      created_at := now
      updated_at := now }
  ({ id := id
     title := input.title
     content := input.content
     importance := impCol
     tags := normalizedTags
     metadata := meta
     createdAt := now
     updatedAt := now }, db ++ [row])

/-- Filters `MemoryFilters` for `listMemories`; `none` = field absent. -/
structure Filters where
  search : Option String := none
  tags : Option (List String) := none
  minImportance : Option Int := none
  maxImportance : Option Int := none
  limit : Option Int := none
  offset : Option Int := none
  before : Option String := none
  after : Option String := none

/-- The `@search` parameter when the search clause is added: the source
skips the clause unless `search && search.trim()` is truthy. -/
def searchClause (f : Filters) : Option String :=
  match f.search with
  | none => none
  | some s =>
    if s.isEmpty then none
    else if (strTrim s).isEmpty then none
    else some (strTrim s)

/-- SQL `LIKE '%pat%'` on TEXT: case-insensitive substring containment
(ASCII folding; `%`/`_` wildcards inside the bound search value are not
modelled — no claim exercises them). -/
def likeMatch (pat s : String) : Bool :=
  (List.range (s.length + 1)).any
    (fun i => (strLower pat).data.isPrefixOf ((strLower s).data.drop i))

/-- The list of `@tagN` parameters: one `EXISTS` clause per normalized
requested tag, added only when the raw requested list is non-empty. -/
def activeTagParams (f : Filters) : List String :=
  match f.tags with
  | none => []
  | some ts => if ts.isEmpty then [] else normalizeTags ts

/-- Rows produced by SQLite `json_each` on a parsed JSON document: members
of an array or object, or the value itself for a scalar. -/
def jsonEachValues : Json → List Json
  | .arr xs => xs
  | .obj fields => fields.map (·.2)
  | v => [v]

/-- Clause `EXISTS (SELECT 1 FROM json_each(memories.tags) WHERE value = @tag)`:
the `=` comparison uses the BINARY collation, so only a string member equal
to `tag` character-for-character (case-sensitively) matches.  On
unparseable text `json_each` raises; `listMemories` returns `none` in that
case, so the value here is irrelevant. -/
def tagsColumnContains (stored : StoredText) (tag : String) : Bool :=
  match stored with
  | .json v =>
    (jsonEachValues v).any (fun j =>
      match j with
      | .str s => s == tag
      | _ => false)
  | _ => false

/-- Text on which `json_each` raises an error. -/
def jsonUnparseable : StoredText → Bool
  | .empty => true
  | .malformed => true
  | .json _ => false

/-- The assembled WHERE clause evaluated on one row.  SQL three-valued
logic on the nullable `importance` column: `NULL >= x` and `NULL <= x` are
NULL, hence not selected.  `title LIKE @search` is NULL for a NULL title,
and `NULL OR b` selects only when `b` is true.  The `before`/`after`
clauses are added only for truthy (non-empty) strings and compare
`updated_at` as TEXT. -/
def rowMatches (f : Filters) (r : Row) : Bool :=
  (match searchClause f with
   | none => true
   | some s =>
     (match r.title with
      | none => false
      | some t => likeMatch s t) || likeMatch s r.content) &&
  (activeTagParams f).all (fun tag => tagsColumnContains r.tags tag) &&
  (match f.minImportance with
   | none => true
   | some m =>
     match r.importance with
     | none => false
     | some i => decide (m ≤ i)) &&
  (match f.maxImportance with
   | none => true
   | some m =>
     match r.importance with
     | none => false
     | some i => decide (i ≤ m)) &&
  (match f.before with
   | none => true
   | some b => if b.isEmpty then true else strLe r.updated_at b) &&
  (match f.after with
   | none => true
   | some a => if a.isEmpty then true else strLe a r.updated_at)

/-- Sorting `ORDER BY updated_at DESC`: descending by the TEXT `updated_at` under
the BINARY collation, ties kept in storage order (stable sort). -/
def sortByUpdatedDesc (rows : List Row) : List Row :=
  List.insertionSort (fun a b => strLe b.updated_at a.updated_at = true) rows

/-- Result shape `MemoryListResult`. -/
structure ListResult where
  items : List Record
  total : Int
  limit : Int
  offset : Int

/-- Method `listMemories(filters)`: clamps `limit` into [1,200] (default 50) and
`offset` to ≥ 0 (default 0), filters with the assembled WHERE clause, sorts
by `updated_at` descending, pages with OFFSET/LIMIT, maps rows through
`mapRow`, and counts all matching rows ignoring pagination.  `none` models
a thrown error: a `json_each` error when a tag clause is present and some
row's tags text is unparseable, or a `mapRow` TypeError on a page row. -/
def listMemories (db : List Row) (f : Filters) : Option ListResult :=
  let limitSafe := min (max (f.limit.getD 50) 1) 200
  let offsetSafe := max (f.offset.getD 0) 0
  if !(activeTagParams f).isEmpty && db.any (fun r => jsonUnparseable r.tags) then
    none
  else
    let matching := db.filter (rowMatches f)
    let page := ((sortByUpdatedDesc matching).drop offsetSafe.toNat).take limitSafe.toNat
    (optMapM jsMapRow page).map (fun items =>
      { items := items
        total := (matching.length : Int)
        limit := limitSafe
        offset := offsetSafe })

/-- Input of `updateMemory` (`MemoryUpdateInput`): each mutable field is
`none` = omitted (`undefined`), `some none` = explicit `null`,
`some (some v)` = replacement value (`content` cannot be null). -/
structure UpdateInput where
  id : String
  title : Option (Option String) := none
  content : Option String := none
  importance : Option (Option Int) := none
  tags : Option (Option (List String)) := none
  metadata : Option (Option Json) := none

/-- Method `updateMemory(input)`: reads the existing record via `getMemory`
(`some (none, db)` when absent, `none` when that read throws), merges each
field (`!== undefined` checks for `title`/`importance`/`tags`/`metadata`,
`??` for `content`), re-normalizes replaced tags
(`normalizeTags(input.tags ?? undefined)`), re-clamps the merged
importance, refreshes `updated_at` to `now`, runs the UPDATE (every stored
row with the id, in place, `created_at` untouched), and returns the merged
record. -/
def updateMemory (now : String) (input : UpdateInput) (db : List Row) :
    Option (Option Record × List Row) :=
  match getMemory db input.id with
  | none => none
  | some none => some (none, db)
  | some (some existing) =>
    let nextTitle := input.title.getD existing.title
    let nextContent := input.content.getD existing.content
    let nextImportance := input.importance.getD existing.importance
    let nextTags :=
      match input.tags with
      | none => existing.tags
      | some t => normalizeTags (t.getD [])
    let nextMetadata :=
      match input.metadata with
      | none => existing.metadata
      | some m => jsNullish m (Json.obj [])
    let impCol := nextImportance.map clampImportance
    let db' := db.map (fun r =>
      if r.id == input.id then
        { r with
          title := nextTitle
          content := nextContent
          importance := impCol
          tags := .json (.arr (nextTags.map .str))
          metadata := .json (serializeJsonVal nextMetadata)
          updated_at := now }
      else r)
    some (some
      { existing with
        title := nextTitle
        content := nextContent
        importance := impCol
        tags := nextTags
        metadata := nextMetadata
        updatedAt := now }, db')

/-- Method `deleteMemory(id)`: DELETE returns whether any row was removed. -/
def deleteMemory (db : List Row) (id : String) : Bool × List Row :=
  let remaining := db.filter (fun r => r.id != id)
  (remaining.length != db.length, remaining)

/-- A row whose tags column is what the store itself writes: serialized
JSON array of strings.  On such rows `mapRow` cannot throw and `json_each`
cannot raise. -/
def rowWF (r : Row) : Bool :=
  match r.tags with
  | .json (.arr xs) => xs.all (fun j => match j with | .str _ => true | _ => false)
  | _ => false

/-- The strings stored in a well-formed tags column. -/
def wfTags (r : Row) : List String :=
  match r.tags with
  | .json (.arr xs) => xs.filterMap asStr
  | _ => []

/-- The record `mapRow` produces on a well-formed row. -/
def wfRecord (r : Row) : Record :=
  mapRowCore r (normalizeTags (wfTags r))

/-- The importance invariant of the spec: null, or an integer in [0,10]. -/
def ImpOK : Option Int → Prop
  | none => True
  | some i => 0 ≤ i ∧ i ≤ 10

/-- The spec's §8 scenario: `create({content: "remember X", tags: ["Work",
"work", "Urgent"], importance: 20})` against an empty store. -/
def scenarioCreate : Record × List Row :=
  addMemory "id1" "2024-01-01T00:00:00.000Z"
    { content := "remember X"
      importance := some 20
      tags := some ["Work", "work", "Urgent"] } []

theorem charListLe_total (x y : List Char) :
    charListLe x y = true ∨ charListLe y x = true := by
  induction x generalizing y with
  | nil => left; rfl
  | cons a as ih =>
    cases y with
    | nil => right; rfl
    | cons b bs =>
      by_cases h1 : a.val.toNat < b.val.toNat
      · left; simp [charListLe, h1]
      · by_cases h2 : b.val.toNat < a.val.toNat
        · right; simp [charListLe, h2]
        · rcases ih bs with h | h
          · left; simp [charListLe, h1, h2, h]
          · right; simp [charListLe, h1, h2, h]

theorem charListLe_trans (x y z : List Char) (h1 : charListLe x y = true)
    (h2 : charListLe y z = true) : charListLe x z = true := by
  induction x generalizing y z with
  | nil => rfl
  | cons a as ih =>
    cases y with
    | nil => simp [charListLe] at h1
    | cons b bs =>
      cases z with
      | nil => simp [charListLe] at h2
      | cons c cs =>
        simp only [charListLe] at h1 h2 ⊢
        split_ifs at h1 h2 ⊢ <;>
          first
            | rfl
            | omega
            | (exact ih bs cs h1 h2)


theorem dropWhile_dropWhile (p : α → Bool) (l : List α) :
    (l.dropWhile p).dropWhile p = l.dropWhile p := by
  induction l with
  | nil => rfl
  | cons a as ih =>
    rw [List.dropWhile_cons]
    by_cases hpa : p a = true
    · simp only [hpa, if_true]
      exact ih
    · have hpa' : p a = false := by simpa using hpa
      simp [List.dropWhile_cons, hpa']

theorem dropWhile_trimL (p : α → Bool) (l : List α) :
    (((l.dropWhile p).reverse.dropWhile p).reverse).dropWhile p
      = ((l.dropWhile p).reverse.dropWhile p).reverse := by
  cases h2 : (l.dropWhile p).reverse.dropWhile p with
  | nil => simp
  | cons a as =>
    have hsuf : (a :: as) <:+ (l.dropWhile p).reverse := h2 ▸ List.dropWhile_suffix p
    have hpre : (a :: as).reverse <+: l.dropWhile p := by
      have := hsuf.reverse
      rwa [List.reverse_reverse] at this
    have hne : (a :: as).reverse ≠ [] := by simp
    have hne1 : l.dropWhile p ≠ [] := by
      intro h
      rw [h] at hpre
      exact hne (List.prefix_nil.mp hpre)
    have hhead : ((a :: as).reverse).head hne = (l.dropWhile p).head (by exact hne1) :=
      hpre.head hne
    have hph : p (((a :: as).reverse).head hne) = false := by
      rw [hhead]
      exact List.head_dropWhile_not p l hne1
    cases hrev : (a :: as).reverse with
    | nil => simp
    | cons b bs =>
      have hb : p b = false := by
        have : ((a :: as).reverse).head hne = b := by
          simp [hrev]
        rwa [this] at hph
      rw [List.dropWhile_cons, hb]
      simp

theorem trimL_idem (l : List Char) : trimL (trimL l) = trimL l := by
  unfold trimL
  rw [dropWhile_trimL, List.reverse_reverse]
  exact dropWhile_trimL _ _

theorem strTrim_idem (s : String) : strTrim (strTrim s) = strTrim s := by
  show String.mk (trimL (trimL s.data)) = String.mk (trimL s.data)
  rw [trimL_idem]

theorem normalizeTagsAux_spec (l : List String) (seen : List String) :
    (∀ t ∈ normalizeTagsAux l seen,
        strTrim t = t ∧ t.isEmpty = false ∧ strLower t ∉ seen)
    ∧ ((normalizeTagsAux l seen).map strLower).Nodup := by
  induction l generalizing seen with
  | nil => simp [normalizeTagsAux]
  | cons t rest ih =>
    by_cases h1 : (strTrim t).isEmpty
    · simpa [normalizeTagsAux, h1] using ih seen
    · by_cases h2 : strLower (strTrim t) ∈ seen
      · simpa [normalizeTagsAux, h1, h2] using ih seen
      · have ih' := ih (strLower (strTrim t) :: seen)
        rw [normalizeTagsAux, if_neg h1, if_neg h2]
        constructor
        · intro x hx
          rcases List.mem_cons.mp hx with hx | hx
          · subst hx
            exact ⟨strTrim_idem t, by simpa using h1, h2⟩
          · obtain ⟨ha, hb, hc⟩ := ih'.1 x hx
            exact ⟨ha, hb, fun hmem => hc (List.mem_cons_of_mem _ hmem)⟩
        · rw [List.map_cons, List.nodup_cons]
          refine ⟨?_, ih'.2⟩
          intro hmem
          obtain ⟨x, hx, hxeq⟩ := List.mem_map.mp hmem
          exact (ih'.1 x hx).2.2 (hxeq ▸ List.mem_cons_self _ _)

theorem normalizeTagsAux_fixed (l : List String) (seen : List String)
    (h : ∀ t ∈ l, strTrim t = t ∧ t.isEmpty = false ∧ strLower t ∉ seen)
    (hnd : (l.map strLower).Nodup) :
    normalizeTagsAux l seen = l := by
  induction l generalizing seen with
  | nil => rfl
  | cons t rest ih =>
    obtain ⟨h1, h2, h3⟩ := h t (List.mem_cons_self _ _)
    rw [List.map_cons, List.nodup_cons] at hnd
    rw [normalizeTagsAux, h1, if_neg (by simp [h2]), if_neg h3]
    congr 1
    apply ih
    · intro x hx
      obtain ⟨ha, hb, hc⟩ := h x (List.mem_cons_of_mem _ hx)
      refine ⟨ha, hb, ?_⟩
      intro hmem
      rcases List.mem_cons.mp hmem with hmem | hmem
      · exact hnd.1 (hmem ▸ List.mem_map_of_mem strLower hx)
      · exact hc hmem
    · exact hnd.2

theorem normalizeTags_idem (l : List String) :
    normalizeTags (normalizeTags l) = normalizeTags l := by
  apply normalizeTagsAux_fixed
  · intro t ht
    exact (normalizeTagsAux_spec l []).1 t ht
  · exact (normalizeTagsAux_spec l []).2

theorem clampImportance_mem (i : Int) :
    0 ≤ clampImportance i ∧ clampImportance i ≤ 10 := by
  unfold clampImportance
  exact ⟨le_max_left 0 _, max_le (by norm_num) (min_le_left _ _)⟩

theorem clampImportance_idem (i : Int) :
    clampImportance (clampImportance i) = clampImportance i := by
  unfold clampImportance
  rcases le_total 10 i with h | h
  · rw [min_eq_left h]
    rw [max_eq_right (by norm_num : (0 : Int) ≤ 10)]
    rw [min_self, max_eq_right (by norm_num : (0 : Int) ≤ 10)]
  · rw [min_eq_right h]
    rcases le_total 0 i with h0 | h0
    · rw [max_eq_right h0, min_eq_right h, max_eq_right h0]
    · rw [max_eq_left h0, min_eq_right (by norm_num : (0 : Int) ≤ 10), max_self]

theorem map_clampImportance_idem (o : Option Int) :
    (o.map clampImportance).map clampImportance = o.map clampImportance := by
  cases o with
  | none => rfl
  | some i => simp [clampImportance_idem]

theorem optMapM_eq_map {f : α → Option β} {g : α → β} (l : List α)
    (h : ∀ a ∈ l, f a = some (g a)) : optMapM f l = some (l.map g) := by
  induction l with
  | nil => rfl
  | cons a as ih =>
    rw [optMapM, h a (List.mem_cons_self _ _),
      ih (fun x hx => h x (List.mem_cons_of_mem _ hx))]
    rfl

theorem optMapM_eq_filterMap (f : α → Option β) (l : List α)
    (h : ∀ a ∈ l, (f a).isSome) : optMapM f l = some (l.filterMap f) := by
  induction l with
  | nil => rfl
  | cons a as ih =>
    obtain ⟨b, hb⟩ := Option.isSome_iff_exists.mp (h a (List.mem_cons_self _ _))
    rw [optMapM, hb, ih (fun x hx => h x (List.mem_cons_of_mem _ hx)),
      List.filterMap_cons, hb]
    rfl

theorem optMapM_mem {f : α → Option β} {l : List α} {ys : List β}
    (h : optMapM f l = some ys) : ∀ y ∈ ys, ∃ x ∈ l, f x = some y := by
  induction l generalizing ys with
  | nil =>
    rw [optMapM] at h
    cases h
    intro y hy
    exact absurd hy (List.not_mem_nil y)
  | cons a as ih =>
    rw [optMapM] at h
    cases hfa : f a with
    | none => rw [hfa] at h; cases h
    | some b =>
      rw [hfa] at h
      cases hrec : optMapM f as with
      | none => rw [hrec] at h; cases h
      | some zs =>
        rw [hrec] at h
        cases h
        intro y hy
        rcases List.mem_cons.mp hy with hy | hy
        · exact ⟨a, List.mem_cons_self _ _, hy ▸ hfa⟩
        · obtain ⟨x, hx, hfx⟩ := ih hrec y hy
          exact ⟨x, List.mem_cons_of_mem _ hx, hfx⟩

theorem jsNormalizeTags_strings (xs : List Json)
    (h : xs.all (fun j => match j with | .str _ => true | _ => false) = true) :
    jsNormalizeTags (.arr xs) = some (normalizeTags (xs.filterMap asStr)) := by
  unfold jsNormalizeTags
  cases xs with
  | nil => rfl
  | cons j js =>
    have hfalsy : jsFalsy (.arr (j :: js)) = false := rfl
    have hlen : jsLengthEqZero (.arr (j :: js)) = false := rfl
    rw [hfalsy, hlen]
    simp only [Bool.or_self, Bool.false_or, if_false, Bool.false_eq_true]
    rw [optMapM_eq_filterMap asStr (j :: js) ?hsome]
    · rfl
    case hsome =>
      intro a ha
      have := (List.all_eq_true.mp h) a ha
      cases a with
      | str s => exact rfl
      | null => cases this
      | bool b => cases this
      | num n => cases this
      | arr ys => cases this
      | obj fs => cases this

theorem jsMapRow_wf (r : Row) (h : rowWF r = true) :
    jsMapRow r = some (wfRecord r) := by
  unfold jsMapRow wfRecord wfTags
  unfold rowWF at h
  cases htags : r.tags with
  | empty => rw [htags] at h; cases h
  | malformed => rw [htags] at h; cases h
  | json v =>
    rw [htags] at h
    cases v with
    | null => cases h
    | bool b => cases h
    | num n => cases h
    | str s => cases h
    | obj fs => cases h
    | arr xs =>
      show (jsNormalizeTags (parseJson (.json (.arr xs)) (Json.arr []))).map
          (mapRowCore r) = _
      rw [show parseJson (.json (.arr xs)) (Json.arr []) = .arr xs from rfl]
      rw [jsNormalizeTags_strings xs h]
      rfl

theorem rowWF_mapRow_isSome (r : Row) (h : rowWF r = true) :
    (jsMapRow r).isSome := by
  rw [jsMapRow_wf r h]
  rfl

theorem pageRows (db : List Row) (f : Filters) (m n : Nat) :
    ∀ r ∈ ((sortByUpdatedDesc (db.filter (rowMatches f))).drop m).take n,
      r ∈ db ∧ rowMatches f r = true := by
  intro r hr
  have h1 : r ∈ sortByUpdatedDesc (db.filter (rowMatches f)) :=
    List.drop_subset _ _ (List.take_subset _ _ hr)
  rw [sortByUpdatedDesc, List.mem_insertionSort] at h1
  have h2 := List.mem_filter.mp h1
  exact ⟨h2.1, h2.2⟩

theorem listMemories_wf (db : List Row) (f : Filters)
    (hwf : ∀ r ∈ db, rowWF r = true) :
    listMemories db f = some
      { items := (((sortByUpdatedDesc (db.filter (rowMatches f))).drop
            (max (f.offset.getD 0) 0).toNat).take
            (min (max (f.limit.getD 50) 1) 200).toNat).map wfRecord
        total := ((db.filter (rowMatches f)).length : Int)
        limit := min (max (f.limit.getD 50) 1) 200
        offset := max (f.offset.getD 0) 0 } := by
  have hno : db.any (fun r => jsonUnparseable r.tags) = false := by
    rw [List.any_eq_false]
    intro r hr
    have hw := hwf r hr
    unfold rowWF at hw
    unfold jsonUnparseable
    cases htags : r.tags with
    | empty => rw [htags] at hw; cases hw
    | malformed => rw [htags] at hw; cases hw
    | json v => simp
  unfold listMemories
  rw [hno]
  simp only [Bool.and_false, Bool.false_eq_true, if_false]
  rw [optMapM_eq_map _ (fun r hr =>
    jsMapRow_wf r (hwf r (pageRows db f _ _ r hr).1))]
  rfl

/-- C7: tag normalization (trim, drop empty/whitespace-only entries,
case-insensitive dedupe preserving first-seen order and casing) is
idempotent, and `normalizeTags ["Foo", "foo", " Bar ", ""] = ["Foo",
"Bar"]`. -/
theorem normalizeTags_idempotent_and_example :
    (∀ t : List String, normalizeTags (normalizeTags t) = normalizeTags t)
    ∧ normalizeTags ["Foo", "foo", " Bar ", ""] = ["Foo", "Bar"] :=
  ⟨normalizeTags_idem, by decide⟩

theorem ImpOK_map_clamp (o : Option Int) : ImpOK (o.map clampImportance) := by
  cases o with
  | none => trivial
  | some i => exact clampImportance_mem i

/-- C3: for every well-formed stored collection, every filter set and every
requested limit/offset, `list` succeeds and its result satisfies: `total`
is the number of records matching the filters ignoring pagination;
`items.length <= limit`; the returned `limit` is the requested one clamped
into [1,200] (default 50) and the returned `offset` is the requested one
clamped to a minimum of 0 (default 0). -/
theorem list_pagination_invariants (db : List Row) (f : Filters)
    (hwf : ∀ r ∈ db, rowWF r = true) :
    ∃ res, listMemories db f = some res ∧
      res.total = ((db.filter (rowMatches f)).length : Int) ∧
      (res.items.length : Int) ≤ res.limit ∧
      res.limit = min (max (f.limit.getD 50) 1) 200 ∧
      1 ≤ res.limit ∧ res.limit ≤ 200 ∧
      (f.limit = none → res.limit = 50) ∧
      res.offset = max (f.offset.getD 0) 0 ∧
      0 ≤ res.offset ∧
      (f.offset = none → res.offset = 0) := by
  have hL1 : (1 : Int) ≤ min (max (f.limit.getD 50) 1) 200 :=
    le_min (le_max_right _ _) (by norm_num)
  refine ⟨_, listMemories_wf db f hwf, rfl, ?_, rfl, hL1, min_le_right _ _,
    ?_, rfl, le_max_right _ _, ?_⟩
  · dsimp only
    rw [List.length_map, List.length_take]
    revert hL1
    generalize (min (max (f.limit.getD 50) 1) 200) = L
    generalize ((sortByUpdatedDesc (db.filter (rowMatches f))).drop
        (max (f.offset.getD 0) 0).toNat).length = X
    intro hL1
    have := Nat.min_le_left L.toNat X
    omega
  · intro h
    rw [h]
    rfl
  · intro h
    rw [h]
    rfl

/-- C3 witness: the invariants instantiated on a concrete one-row store
and a concrete filter/limit/offset. -/
theorem list_pagination_invariants_witness :
    ∃ res,
      listMemories
        [⟨"a", none, "c", some 3, .json (.arr [.str "x"]), .json (.obj []),
          "2024-01-01T00:00:00.000Z", "2024-01-01T00:00:00.000Z"⟩]
        { limit := some 500, offset := some (-2) } = some res ∧
      res.total = ((([⟨"a", none, "c", some 3, .json (.arr [.str "x"]),
          .json (.obj []), "2024-01-01T00:00:00.000Z",
          "2024-01-01T00:00:00.000Z"⟩] : List Row).filter
          (rowMatches { limit := some 500, offset := some (-2) })).length : Int) ∧
      (res.items.length : Int) ≤ res.limit ∧
      res.limit = min (max (((some 500 : Option Int)).getD 50) 1) 200 ∧
      1 ≤ res.limit ∧ res.limit ≤ 200 ∧
      ((some 500 : Option Int) = none → res.limit = 50) ∧
      res.offset = max (((some (-2) : Option Int)).getD 0) 0 ∧
      0 ≤ res.offset ∧
      ((some (-2) : Option Int) = none → res.offset = 0) :=
  list_pagination_invariants _ _ (by decide)

/-- C9: in every successful `list` result over a well-formed store, for
every pair of returned records `a` before `b`, `a.updatedAt >=
b.updatedAt` — `strLe` is (lexicographic, SQLite-BINARY) string ≤ on the
ISO-8601 timestamps, so the items are ordered by `updatedAt` descending. -/
theorem list_ordered_by_updatedAt_desc (db : List Row) (f : Filters)
    (res : ListResult)
    (hwf : ∀ r ∈ db, rowWF r = true)
    (hres : listMemories db f = some res) :
    ∀ i j (hi : i < res.items.length) (hj : j < res.items.length), i < j →
      strLe (res.items.get ⟨j, hj⟩).updatedAt
        (res.items.get ⟨i, hi⟩).updatedAt = true := by
  rw [listMemories_wf db f hwf] at hres
  have hres' := (Option.some.inj hres).symm
  subst hres'
  haveI : IsTotal Row (fun a b : Row => strLe b.updated_at a.updated_at = true) :=
    ⟨fun a b => charListLe_total b.updated_at.data a.updated_at.data⟩
  haveI : IsTrans Row (fun a b : Row => strLe b.updated_at a.updated_at = true) :=
    ⟨fun _ _ _ hab hbc => charListLe_trans _ _ _ hbc hab⟩
  have hsorted : List.Pairwise
      (fun a b : Row => strLe b.updated_at a.updated_at = true)
      (sortByUpdatedDesc (db.filter (rowMatches f))) :=
    List.sorted_insertionSort _ _
  have hpage : List.Pairwise
      (fun a b : Row => strLe b.updated_at a.updated_at = true)
      (((sortByUpdatedDesc (db.filter (rowMatches f))).drop
        (max (f.offset.getD 0) 0).toNat).take
        (min (max (f.limit.getD 50) 1) 200).toNat) :=
    List.Pairwise.sublist
      ((List.take_sublist _ _).trans (List.drop_sublist _ _)) hsorted
  have hitems : List.Pairwise
      (fun a b : Record => strLe b.updatedAt a.updatedAt = true)
      ((((sortByUpdatedDesc (db.filter (rowMatches f))).drop
        (max (f.offset.getD 0) 0).toNat).take
        (min (max (f.limit.getD 50) 1) 200).toNat).map wfRecord) := by
    rw [List.pairwise_map]
    exact hpage
  intro i j hi hj hij
  exact List.pairwise_iff_getElem.mp hitems i j hi hj hij

/-- C9 witness: the ordering property applied to a concrete two-row store
at positions 0 and 1 (the older record is listed second). -/
theorem list_ordered_by_updatedAt_desc_witness :
    strLe
      (([wfRecord ⟨"b", none, "d", none, .json (.arr []), .json (.obj []),
          "2024-02-02T00:00:00.000Z", "2024-02-02T00:00:00.000Z"⟩,
         wfRecord ⟨"a", none, "c", none, .json (.arr []), .json (.obj []),
          "2024-01-01T00:00:00.000Z", "2024-01-01T00:00:00.000Z"⟩].get
        ⟨1, by decide⟩).updatedAt)
      (([wfRecord ⟨"b", none, "d", none, .json (.arr []), .json (.obj []),
          "2024-02-02T00:00:00.000Z", "2024-02-02T00:00:00.000Z"⟩,
         wfRecord ⟨"a", none, "c", none, .json (.arr []), .json (.obj []),
          "2024-01-01T00:00:00.000Z", "2024-01-01T00:00:00.000Z"⟩].get
        ⟨0, by decide⟩).updatedAt) = true :=
  list_ordered_by_updatedAt_desc
    [⟨"a", none, "c", none, .json (.arr []), .json (.obj []),
      "2024-01-01T00:00:00.000Z", "2024-01-01T00:00:00.000Z"⟩,
     ⟨"b", none, "d", none, .json (.arr []), .json (.obj []),
      "2024-02-02T00:00:00.000Z", "2024-02-02T00:00:00.000Z"⟩]
    {}
    (ListResult.mk
      [wfRecord ⟨"b", none, "d", none, .json (.arr []), .json (.obj []),
        "2024-02-02T00:00:00.000Z", "2024-02-02T00:00:00.000Z"⟩,
       wfRecord ⟨"a", none, "c", none, .json (.arr []), .json (.obj []),
        "2024-01-01T00:00:00.000Z", "2024-01-01T00:00:00.000Z"⟩]
      2 50 0)
    (by decide) (by rfl) 0 1 (by decide) (by decide) (by decide)

/-- C10: when `minImportance` or `maxImportance` (or both) is supplied,
a stored row with NULL importance matches no clause set (SQL NULL
comparison semantics): it is excluded from `items` and from `total` —
`total` counts only rows with non-null importance. -/
theorem list_null_importance_excluded (db : List Row) (f : Filters)
    (res : ListResult)
    (hwf : ∀ r ∈ db, rowWF r = true)
    (hres : listMemories db f = some res)
    (hbound : f.minImportance ≠ none ∨ f.maxImportance ≠ none) :
    (∀ r : Row, r.importance = none → rowMatches f r = false) ∧
    (∀ rec ∈ res.items, rec.importance ≠ none) ∧
    res.total = (((db.filter (fun r => r.importance.isSome)).filter
      (rowMatches f)).length : Int) := by
  have hexcl : ∀ r : Row, r.importance = none → rowMatches f r = false := by
    intro r himp
    rcases hbound with hb | hb
    · cases hmin : f.minImportance with
      | none => exact absurd hmin hb
      | some m => simp [rowMatches, hmin, himp]
    · cases hmax : f.maxImportance with
      | none => exact absurd hmax hb
      | some m => simp [rowMatches, hmax, himp]
  rw [listMemories_wf db f hwf] at hres
  have hres' := (Option.some.inj hres).symm
  subst hres'
  refine ⟨hexcl, ?_, ?_⟩
  · intro rec hrec
    obtain ⟨r, hr, hrfl⟩ := List.mem_map.mp hrec
    have hmatch := (pageRows db f _ _ r hr).2
    cases himp : r.importance with
    | none => rw [hexcl r himp] at hmatch; cases hmatch
    | some i =>
      subst hrfl
      show (wfRecord r).importance ≠ none
      unfold wfRecord mapRowCore
      rw [himp]
      simp
  · have hfeq : (db.filter (fun r => r.importance.isSome)).filter
        (rowMatches f) = db.filter (rowMatches f) := by
      rw [List.filter_filter]
      apply List.filter_congr
      intro r hr
      cases himp : r.importance with
      | none => simp [himp, hexcl r himp]
      | some i => simp [himp]
    rw [hfeq]

/-- C10 witness: on a two-row store where one row has NULL importance,
a filter with `minImportance` excludes the NULL row from items and
total. -/
theorem list_null_importance_excluded_witness :
    (∀ r : Row, r.importance = none →
      rowMatches { minImportance := some 0 } r = false) ∧
    (∀ rec ∈ (ListResult.mk
        [wfRecord ⟨"b", none, "d", some 7, .json (.arr []), .json (.obj []),
          "2024-01-01T00:00:00.000Z", "2024-01-01T00:00:00.000Z"⟩] 1 50 0).items,
      rec.importance ≠ none) ∧
    (ListResult.mk
        [wfRecord ⟨"b", none, "d", some 7, .json (.arr []), .json (.obj []),
          "2024-01-01T00:00:00.000Z", "2024-01-01T00:00:00.000Z"⟩] 1 50 0).total =
      (((([⟨"a", none, "c", none, .json (.arr []), .json (.obj []),
            "2024-02-02T00:00:00.000Z", "2024-02-02T00:00:00.000Z"⟩,
          ⟨"b", none, "d", some 7, .json (.arr []), .json (.obj []),
            "2024-01-01T00:00:00.000Z", "2024-01-01T00:00:00.000Z"⟩] : List Row).filter
          (fun r => r.importance.isSome)).filter
          (rowMatches { minImportance := some 0 })).length : Int) :=
  list_null_importance_excluded
    [⟨"a", none, "c", none, .json (.arr []), .json (.obj []),
      "2024-02-02T00:00:00.000Z", "2024-02-02T00:00:00.000Z"⟩,
     ⟨"b", none, "d", some 7, .json (.arr []), .json (.obj []),
      "2024-01-01T00:00:00.000Z", "2024-01-01T00:00:00.000Z"⟩]
    { minImportance := some 0 } _ (by decide) (by rfl) (by simp)

/-- C8: every record returned by create, get, list or update has
importance null or an integer in [0,10] (clamped, never rejected, at both
write and read time); creating with importance 15 returns 10, with -3
returns 0, and omitting importance yields null. -/
theorem importance_clamped_everywhere :
    (∀ id now input db, ImpOK ((addMemory id now input db).1.importance))
    ∧ (∀ db i rec, getMemory db i = some (some rec) → ImpOK rec.importance)
    ∧ (∀ db f res, listMemories db f = some res →
        ∀ rec ∈ res.items, ImpOK rec.importance)
    ∧ (∀ now input db rec db',
        updateMemory now input db = some (some rec, db') → ImpOK rec.importance)
    ∧ (addMemory "a" "t" { content := "c", importance := some 15 } []).1.importance
        = some 10
    ∧ (addMemory "a" "t" { content := "c", importance := some (-3) } []).1.importance
        = some 0
    ∧ (addMemory "a" "t" { content := "c" } []).1.importance = none := by
  have hget : ∀ (db : List Row) (i : String) (rec : Record),
      getMemory db i = some (some rec) → ImpOK rec.importance := by
    intro db i rec h
    unfold getMemory at h
    cases hfind : db.find? (fun r => r.id == i) with
    | none =>
      rw [hfind] at h
      dsimp only at h
      cases Option.some.inj h
    | some row =>
      rw [hfind] at h
      dsimp only at h
      cases hm : jsMapRow row with
      | none => rw [hm] at h; cases h
      | some rec' =>
        rw [hm] at h
        have hrec : rec' = rec := Option.some.inj (Option.some.inj h)
        obtain ⟨ts, _, hcore⟩ := Option.map_eq_some'.mp hm
        rw [← hrec, ← hcore]
        exact ImpOK_map_clamp row.importance
  refine ⟨?_, hget, ?_, ?_, by decide, by decide, by decide⟩
  · intro id now input db
    exact ImpOK_map_clamp input.importance
  · intro db f res hres rec hrec
    unfold listMemories at hres
    split at hres
    · cases hres
    · obtain ⟨items, hitems, hres'⟩ := Option.map_eq_some'.mp hres
      have hrec' : rec ∈ items := by
        rw [← hres'] at hrec
        exact hrec
      obtain ⟨row, _, hm⟩ := optMapM_mem hitems rec hrec'
      obtain ⟨ts, _, hcore⟩ := Option.map_eq_some'.mp hm
      rw [← hcore]
      exact ImpOK_map_clamp row.importance
  · intro now input db rec db' h
    unfold updateMemory at h
    cases hg : getMemory db input.id with
    | none =>
      rw [hg] at h
      dsimp only at h
      cases h
    | some o =>
      rw [hg] at h
      cases o with
      | none =>
        dsimp only at h
        have hpair := Option.some.inj h
        exact Option.noConfusion (congrArg Prod.fst hpair)
      | some existing =>
        dsimp only at h
        injection h with h1
        injection h1 with h2 h3
        injection h2 with h4
        rw [← h4]
        exact ImpOK_map_clamp _

/-- C8 witness: the get-component applied to a concrete one-row store whose
stored importance 99 is re-clamped on read. -/
theorem importance_clamped_everywhere_witness :
    ImpOK (mapRowCore
      ⟨"a", none, "c", some 99, .json (.arr []), .json (.obj []), "t", "t"⟩
      []).importance :=
  importance_clamped_everywhere.2.1
    [⟨"a", none, "c", some 99, .json (.arr []), .json (.obj []), "t", "t"⟩]
    "a" _ (by rfl)

/-- C1 (falsified by the code): in the spec's own scenario the record is
created with tags `["Work", "Urgent"]` and importance 10, but
`list({tags: ["urgent"], minImportance: 5})` returns NO records: the SQL
tag test `EXISTS (SELECT 1 FROM json_each(memories.tags) WHERE value =
@tag)` compares with the case-sensitive BINARY collation, so the
normalized query tag `"urgent"` does not match the stored `"Urgent"`.
Querying with the stored casing (`["Urgent"]`) does return the record,
isolating case sensitivity as the cause. -/
theorem list_tag_filter_case_sensitive_eval :
    scenarioCreate.1.tags = ["Work", "Urgent"]
    ∧ scenarioCreate.1.importance = some 10
    ∧ listMemories scenarioCreate.2
        { tags := some ["urgent"], minImportance := some 5 }
        = some ⟨[], 0, 50, 0⟩
    ∧ (listMemories scenarioCreate.2
        { tags := some ["Urgent"], minImportance := some 5 }).map
        (fun res => (res.items.map (·.id), res.total))
        = some (["id1"], 1) :=
  ⟨rfl, rfl, rfl, rfl⟩

/-- C2 counterexample: a stored row whose tags column holds the
well-formed JSON text `5` — well-formed JSON, but not of the expected
shape — makes `getMemory` throw (a TypeError on `.map` in
`normalizeTags`), modelled by `none`, instead of substituting the empty
default as the claim states. -/
theorem mapRow_wrong_shape_throws :
    getMemory
      [⟨"a", none, "c", none, .json (.num 5), .json (.obj []), "t", "t"⟩]
      "a" = none :=
  rfl

theorem all_str_map_str (ts : List String) :
    (ts.map Json.str).all
      (fun j => match j with | .str _ => true | _ => false) = true := by
  induction ts with
  | nil => rfl
  | cons t rest ih => simp only [List.map_cons, List.all_cons, Bool.true_and, ih]

theorem filterMap_asStr_map_str (ts : List String) :
    (ts.map Json.str).filterMap asStr = ts := by
  induction ts with
  | nil => rfl
  | cons t rest ih => simp [asStr, ih]

theorem serializeJsonVal_parseJson (st : StoredText) (h : st ≠ .json .null) :
    serializeJsonVal (parseJson st (Json.obj []))
      = parseJson st (Json.obj []) := by
  cases st with
  | empty => rfl
  | malformed => rfl
  | json v =>
    cases v with
    | null => exact absurd rfl h
    | bool b => rfl
    | num n => rfl
    | str s => rfl
    | arr xs => rfl
    | obj fs => rfl

theorem getMemory_wf (db : List Row) (id : String) (row : Row)
    (hfind : db.find? (fun r => r.id == id) = some row)
    (hwf : rowWF row = true) :
    getMemory db id = some (some (wfRecord row)) := by
  unfold getMemory
  rw [hfind]
  dsimp only
  rw [jsMapRow_wf row hwf]

/-- C5: on an existing well-formed record, `update` with an explicit null
clears each nullable field to its empty default — title to null,
importance to null, tags to the empty sequence, metadata to the empty
mapping — while fields that are omitted (undefined) are left unchanged. -/
theorem update_null_clears (db : List Row) (input : UpdateInput) (row : Row)
    (now : String)
    (hfind : db.find? (fun r => r.id == input.id) = some row)
    (hwf : rowWF row = true) :
    ∃ rec db', updateMemory now input db = some (some rec, db') ∧
      (input.title = some none → rec.title = none) ∧
      (input.importance = some none → rec.importance = none) ∧
      (input.tags = some none → rec.tags = []) ∧
      (input.metadata = some none → rec.metadata = Json.obj []) ∧
      (input.title = none → rec.title = (wfRecord row).title) ∧
      (input.content = none → rec.content = (wfRecord row).content) ∧
      (input.importance = none → rec.importance = (wfRecord row).importance) ∧
      (input.tags = none → rec.tags = (wfRecord row).tags) ∧
      (input.metadata = none → rec.metadata = (wfRecord row).metadata) := by
  unfold updateMemory
  rw [getMemory_wf db input.id row hfind hwf]
  dsimp only
  refine ⟨_, _, rfl, ?_, ?_, ?_, ?_, ?_, ?_, ?_, ?_, ?_⟩
  · intro h; simp [h]
  · intro h; simp [h]
  · intro h; simp [h, normalizeTags, normalizeTagsAux]
  · intro h; simp [h, jsNullish]
  · intro h; simp [h]
  · intro h; simp [h]
  · intro h
    simp only [h, Option.getD_none]
    show ((wfRecord row).importance.map clampImportance) = (wfRecord row).importance
    unfold wfRecord mapRowCore
    exact map_clampImportance_idem row.importance
  · intro h; simp [h]
  · intro h; simp [h]

/-- C5 witness: a concrete update that nulls importance and metadata and
omits title/content/tags, against a concrete one-row store: the nulled
fields are cleared and the omitted tags stay unchanged. -/
theorem update_null_clears_witness :
    ∃ rec db', updateMemory "t2"
      { id := "a", importance := some none, metadata := some none }
      [⟨"a", some "T", "c", some 3, .json (.arr [.str "x"]), .json (.obj []),
        "t1", "t1"⟩] = some (some rec, db') ∧
      rec.importance = none ∧
      rec.metadata = Json.obj [] ∧
      rec.tags = (wfRecord ⟨"a", some "T", "c", some 3,
        .json (.arr [.str "x"]), .json (.obj []), "t1", "t1"⟩).tags ∧
      rec.title = (wfRecord ⟨"a", some "T", "c", some 3,
        .json (.arr [.str "x"]), .json (.obj []), "t1", "t1"⟩).title := by
  obtain ⟨rec, db', heq, _, h2, _, h4, h5, _, _, h8, _⟩ := update_null_clears
    [⟨"a", some "T", "c", some 3, .json (.arr [.str "x"]), .json (.obj []),
      "t1", "t1"⟩]
    { id := "a", importance := some none, metadata := some none }
    ⟨"a", some "T", "c", some 3, .json (.arr [.str "x"]), .json (.obj []),
      "t1", "t1"⟩
    "t2" rfl rfl
  exact ⟨rec, db', heq, h2 rfl, h4 rfl, h8 rfl, h5 rfl⟩

theorem rowWF_of_tags (r : Row) (ts : List String)
    (h : r.tags = .json (.arr (ts.map .str))) : rowWF r = true := by
  unfold rowWF
  rw [h]
  exact all_str_map_str ts

theorem wfTags_of_tags (r : Row) (ts : List String)
    (h : r.tags = .json (.arr (ts.map .str))) : wfTags r = ts := by
  unfold wfTags
  rw [h]
  exact filterMap_asStr_map_str ts

/-- C6: for every create input against a store that does not already
contain the fresh id (UUIDs are assumed fresh), reading the id of the
record returned by create yields a record equal to the create result in
every field. -/
theorem create_get_roundtrip (id now : String) (input : CreateInput)
    (db : List Row)
    (hid : ∀ r ∈ db, r.id ≠ id) :
    getMemory (addMemory id now input db).2 id
      = some (some (addMemory id now input db).1) := by
  unfold addMemory getMemory
  dsimp only
  have hnone : db.find? (fun r => r.id == id) = none := by
    rw [List.find?_eq_none]
    intro r hr
    simpa using hid r hr
  rw [List.find?_append, hnone, Option.none_or, List.find?_cons]
  simp only [beq_self_eq_true]
  rw [jsMapRow_wf _ (rowWF_of_tags _ (normalizeTags (input.tags.getD [])) rfl)]
  unfold wfRecord
  rw [wfTags_of_tags _ (normalizeTags (input.tags.getD [])) rfl]
  unfold mapRowCore
  dsimp only
  rw [normalizeTags_idem, map_clampImportance_idem]
  rfl

/-- C6 witness: round trip of a concrete create (title, unnormalized tags,
importance 5, object metadata) against an empty store. -/
theorem create_get_roundtrip_witness :
    getMemory (addMemory "x" "t"
      { title := some "T"
        content := "c"
        importance := some 5
        tags := some ["A", "a", " B "]
        metadata := some (.obj [("k", .num 1)]) } []).2 "x"
      = some (some (addMemory "x" "t"
      { title := some "T"
        content := "c"
        importance := some 5
        tags := some ["A", "a", " B "]
        metadata := some (.obj [("k", .num 1)]) } []).1) :=
  create_get_roundtrip "x" "t"
    { title := some "T"
      content := "c"
      importance := some 5
      tags := some ["A", "a", " B "]
      metadata := some (.obj [("k", .num 1)]) }
    [] (by simp)

theorem find?_map_of_id_preserved (db : List Row) (p : Row → Bool)
    (u : Row → Row) (hp : ∀ r, p (u r) = p r) :
    (db.map u).find? p = (db.find? p).map u := by
  rw [List.find?_map]
  have h : (p ∘ u) = p := funext hp
  rw [h]

theorem updateMemory_wf (db : List Row) (input : UpdateInput) (row : Row)
    (now : String)
    (hfind : db.find? (fun r => r.id == input.id) = some row)
    (hwf : rowWF row = true) :
    updateMemory now input db = some (some
      { id := (wfRecord row).id
        title := input.title.getD (wfRecord row).title
        content := input.content.getD (wfRecord row).content
        importance := (input.importance.getD
          (wfRecord row).importance).map clampImportance
        tags :=
          match input.tags with
          | none => (wfRecord row).tags
          | some t => normalizeTags (t.getD [])
        metadata :=
          match input.metadata with
          | none => (wfRecord row).metadata
          | some m => jsNullish m (Json.obj [])
        createdAt := (wfRecord row).createdAt
        updatedAt := now },
      db.map (fun r =>
        if r.id == input.id then
          { r with
            title := input.title.getD (wfRecord row).title
            content := input.content.getD (wfRecord row).content
            importance := (input.importance.getD
              (wfRecord row).importance).map clampImportance
            tags := .json (.arr
              ((match input.tags with
                | none => (wfRecord row).tags
                | some t => normalizeTags (t.getD [])).map .str))
            metadata := .json (serializeJsonVal
              (match input.metadata with
               | none => (wfRecord row).metadata
               | some m => jsNullish m (Json.obj [])))
            updated_at := now }
        else r)) := by
  unfold updateMemory
  rw [getMemory_wf db input.id row hfind hwf]

theorem wfRecord_tags (r : Row) :
    (wfRecord r).tags = normalizeTags (wfTags r) := rfl

theorem wfRecord_metadata (r : Row) :
    (wfRecord r).metadata = parseJson r.metadata (Json.obj []) := rfl

theorem update_readback (db : List Row) (id now : String)
    (nT : Option String) (nC : String) (nI : Option Int)
    (nTags : List String) (nM : Json) (row : Row)
    (hfind : db.find? (fun r => r.id == id) = some row) :
    getMemory (db.map (fun r =>
      if r.id == id then
        { r with
          title := nT
          content := nC
          importance := nI
          tags := .json (.arr (nTags.map .str))
          metadata := .json (serializeJsonVal nM)
          updated_at := now }
      else r)) id
    = some (some (wfRecord
        { row with
          title := nT
          content := nC
          importance := nI
          tags := .json (.arr (nTags.map .str))
          metadata := .json (serializeJsonVal nM)
          updated_at := now })) := by
  have hrowid : (row.id == id) = true := by
    have h := List.find?_some hfind
    exact h
  have hpid : ∀ r : Row,
      (((fun r : Row =>
        if r.id == id then
          { r with
            title := nT
            content := nC
            importance := nI
            tags := .json (.arr (nTags.map .str))
            metadata := .json (serializeJsonVal nM)
            updated_at := now }
        else r) r).id == id) = (r.id == id) := by
    intro r
    by_cases hb : r.id == id <;> simp [hb]
  have hfind2 := find?_map_of_id_preserved db (fun r => r.id == id) _ hpid
  rw [hfind] at hfind2
  apply getMemory_wf
  · rw [hfind2]
    have hidEq : row.id = id := by simpa using hrowid
    simp [hidEq]
  · exact rowWF_of_tags _ nTags rfl

/-- C4: updating an existing well-formed record with any subset of the
mutable fields leaves every omitted (undefined) field unchanged — both in
the returned record and on a subsequent read of the same id — leaves
createdAt untouched, and sets updatedAt to the supplied current time.
(The row's metadata text is additionally assumed not to be the literal
JSON text `null`, which the store itself never writes.) -/
theorem update_preserves_omitted_fields (db : List Row) (input : UpdateInput)
    (row : Row) (now : String)
    (hfind : db.find? (fun r => r.id == input.id) = some row)
    (hwf : rowWF row = true)
    (hmeta : row.metadata ≠ .json .null) :
    ∃ rec db', updateMemory now input db = some (some rec, db') ∧
      (input.title = none → rec.title = (wfRecord row).title) ∧
      (input.content = none → rec.content = (wfRecord row).content) ∧
      (input.importance = none → rec.importance = (wfRecord row).importance) ∧
      (input.tags = none → rec.tags = (wfRecord row).tags) ∧
      (input.metadata = none → rec.metadata = (wfRecord row).metadata) ∧
      rec.createdAt = (wfRecord row).createdAt ∧
      rec.updatedAt = now ∧
      (∃ rec', getMemory db' input.id = some (some rec') ∧
        (input.title = none → rec'.title = (wfRecord row).title) ∧
        (input.content = none → rec'.content = (wfRecord row).content) ∧
        (input.importance = none → rec'.importance = (wfRecord row).importance) ∧
        (input.tags = none → rec'.tags = (wfRecord row).tags) ∧
        (input.metadata = none → rec'.metadata = (wfRecord row).metadata) ∧
        rec'.createdAt = (wfRecord row).createdAt ∧
        rec'.updatedAt = now) := by
  have hImpRow : (wfRecord row).importance.map clampImportance
      = (wfRecord row).importance := by
    unfold wfRecord mapRowCore
    exact map_clampImportance_idem row.importance
  have hTagsRow : normalizeTags (wfRecord row).tags = (wfRecord row).tags := by
    unfold wfRecord mapRowCore
    exact normalizeTags_idem (wfTags row)
  have hMetaRow : serializeJsonVal (wfRecord row).metadata
      = (wfRecord row).metadata := by
    unfold wfRecord mapRowCore
    exact serializeJsonVal_parseJson row.metadata hmeta
  refine ⟨_, _, updateMemory_wf db input row now hfind hwf,
    ?_, ?_, ?_, ?_, ?_, rfl, rfl, ?_⟩
  · intro h; rw [h]; rfl
  · intro h; rw [h]; rfl
  · intro h
    show ((input.importance.getD (wfRecord row).importance).map
      clampImportance) = _
    rw [h, Option.getD_none, hImpRow]
  · intro h; rw [h]
  · intro h; rw [h]
  -- read-back through the updated table
  · refine ⟨_, update_readback db input.id now
      (input.title.getD (wfRecord row).title)
      (input.content.getD (wfRecord row).content)
      ((input.importance.getD (wfRecord row).importance).map clampImportance)
      (match input.tags with
       | none => (wfRecord row).tags
       | some t => normalizeTags (t.getD []))
      (match input.metadata with
       | none => (wfRecord row).metadata
       | some m => jsNullish m (Json.obj []))
      row hfind, ?_, ?_, ?_, ?_, ?_, ?_, ?_⟩
    · intro h
      show input.title.getD (wfRecord row).title = _
      rw [h]
      rfl
    · intro h
      show input.content.getD (wfRecord row).content = _
      rw [h]
      rfl
    · intro h
      show ((input.importance.getD (wfRecord row).importance).map
        clampImportance).map clampImportance = _
      rw [h, Option.getD_none, hImpRow, hImpRow]
    · intro h
      rw [wfRecord_tags, wfTags_of_tags _ _ rfl, h]
      exact hTagsRow
    · intro h
      rw [wfRecord_metadata, h]
      exact hMetaRow
    · rfl
    · rfl

/-- C4 witness: a concrete update of only `title` against a concrete
one-row store leaves content, importance, tags and metadata unchanged,
keeps createdAt, and refreshes updatedAt — as returned and as read back. -/
theorem update_preserves_omitted_fields_witness :
    ∃ rec db', updateMemory "t2"
      { id := "a", title := some (some "New") }
      [⟨"a", some "Old", "c", some 3, .json (.arr [.str "X"]),
        .json (.obj []), "t1", "t1"⟩] = some (some rec, db') ∧
      rec.content = (wfRecord ⟨"a", some "Old", "c", some 3,
        .json (.arr [.str "X"]), .json (.obj []), "t1", "t1"⟩).content ∧
      rec.importance = (wfRecord ⟨"a", some "Old", "c", some 3,
        .json (.arr [.str "X"]), .json (.obj []), "t1", "t1"⟩).importance ∧
      rec.tags = (wfRecord ⟨"a", some "Old", "c", some 3,
        .json (.arr [.str "X"]), .json (.obj []), "t1", "t1"⟩).tags ∧
      rec.metadata = (wfRecord ⟨"a", some "Old", "c", some 3,
        .json (.arr [.str "X"]), .json (.obj []), "t1", "t1"⟩).metadata ∧
      rec.createdAt = (wfRecord ⟨"a", some "Old", "c", some 3,
        .json (.arr [.str "X"]), .json (.obj []), "t1", "t1"⟩).createdAt ∧
      rec.updatedAt = "t2" ∧
      ∃ rec', getMemory db' "a" = some (some rec') ∧
        rec'.tags = (wfRecord ⟨"a", some "Old", "c", some 3,
          .json (.arr [.str "X"]), .json (.obj []), "t1", "t1"⟩).tags ∧
        rec'.updatedAt = "t2" := by
  obtain ⟨rec, db', heq, _, hB, hC, hD, hE, hF, hG,
      rec', heq', _, _, _, hD', _, _, hG'⟩ :=
    update_preserves_omitted_fields
      [⟨"a", some "Old", "c", some 3, .json (.arr [.str "X"]),
        .json (.obj []), "t1", "t1"⟩]
      { id := "a", title := some (some "New") }
      ⟨"a", some "Old", "c", some 3, .json (.arr [.str "X"]),
        .json (.obj []), "t1", "t1"⟩
      "t2" rfl rfl
      (fun h => Json.noConfusion (StoredText.json.inj h))
  exact ⟨rec, db', heq, hB rfl, hC rfl, hD rfl, hE rfl, hF, hG,
    rec', heq', hD' rfl, hG'⟩

theorem getMemory_metadata_eq (db : List Row) (id : String) (row : Row)
    (hfind : db.find? (fun r => r.id == id) = some row) :
    ∀ rec, getMemory db id = some (some rec) →
      rec.metadata = parseJson row.metadata (Json.obj []) := by
  intro rec h
  unfold getMemory at h
  rw [hfind] at h
  dsimp only at h
  cases hm : jsMapRow row with
  | none => rw [hm] at h; cases h
  | some rec' =>
    rw [hm] at h
    have hrec : rec' = rec := Option.some.inj (Option.some.inj h)
    obtain ⟨ts, _, hcore⟩ := Option.map_eq_some'.mp hm
    rw [← hrec, ← hcore]
    rfl

/-- C2 amended: each column is recovered independently when its text is
empty or malformed (unparseable) JSON — never because of the other column.
(1) If the tags text is empty/malformed, the read succeeds whatever the
metadata column holds, substituting the empty tag sequence and decoding
metadata as usual.  (2) If the metadata text is empty/malformed, the read
succeeds whenever the tags column is what the store writes, substituting
the empty mapping; and any successful read of such a row yields the empty
mapping.  (3) Well-formed metadata JSON of any shape is passed through
unchanged on every successful read — not replaced by the empty mapping.
Wrong-shaped but well-formed tags JSON stays outside this recovery (it
throws, see the counterexample). -/
theorem mapRow_malformed_defaults (db : List Row) (id : String) (row : Row)
    (hfind : db.find? (fun r => r.id == id) = some row) :
    ((row.tags = .empty ∨ row.tags = .malformed) →
      getMemory db id = some (some
        { id := row.id
          title := row.title
          content := row.content
          importance := row.importance.map clampImportance
          tags := []
          metadata := parseJson row.metadata (Json.obj [])
          createdAt := row.created_at
          updatedAt := row.updated_at }))
    ∧ ((row.metadata = .empty ∨ row.metadata = .malformed) →
        (rowWF row = true →
          getMemory db id = some (some (wfRecord row)) ∧
          (wfRecord row).metadata = Json.obj []) ∧
        (∀ rec, getMemory db id = some (some rec) →
          rec.metadata = Json.obj []))
    ∧ (∀ v, row.metadata = .json v →
        ∀ rec, getMemory db id = some (some rec) → rec.metadata = v) := by
  refine ⟨?_, ?_, ?_⟩
  · intro htags
    have hm : jsMapRow row = some (mapRowCore row []) := by
      unfold jsMapRow
      rcases htags with h | h <;> rw [h] <;> rfl
    unfold getMemory
    rw [hfind]
    dsimp only
    rw [hm]
    rfl
  · intro hmetabad
    constructor
    · intro hwf
      refine ⟨getMemory_wf db id row hfind hwf, ?_⟩
      rw [wfRecord_metadata]
      rcases hmetabad with h | h <;> rw [h] <;> rfl
    · intro rec h
      rw [getMemory_metadata_eq db id row hfind rec h]
      rcases hmetabad with h | h <;> rw [h] <;> rfl
  · intro v hv rec h
    rw [getMemory_metadata_eq db id row hfind rec h, hv]
    rfl

/-- C2 amended witness: two concrete single-bad-column rows — one with
malformed tags text but a well-formed metadata object (read succeeds,
tags default to `[]`, metadata is preserved), and one with well-formed
tags but malformed metadata text (read succeeds, metadata defaults to the
empty mapping). -/
theorem mapRow_malformed_defaults_witness :
    getMemory
      [⟨"a", some "T", "c", some 3, .malformed, .json (.obj [("k", .num 1)]),
        "t1", "t2"⟩]
      "a" = some (some
      { id := "a"
        title := some "T"
        content := "c"
        importance := (some (3 : Int)).map clampImportance
        tags := []
        metadata := .obj [("k", .num 1)]
        createdAt := "t1"
        updatedAt := "t2" })
    ∧ getMemory
        [⟨"b", none, "d", none, .json (.arr [.str "x"]), .malformed,
          "t3", "t3"⟩]
        "b" = some (some (wfRecord
          ⟨"b", none, "d", none, .json (.arr [.str "x"]), .malformed,
            "t3", "t3"⟩))
    ∧ (wfRecord ⟨"b", none, "d", none, .json (.arr [.str "x"]), .malformed,
        "t3", "t3"⟩).metadata = Json.obj [] := by
  refine ⟨?_, ?_, ?_⟩
  · exact (mapRow_malformed_defaults
      [⟨"a", some "T", "c", some 3, .malformed,
        .json (.obj [("k", .num 1)]), "t1", "t2"⟩]
      "a" ⟨"a", some "T", "c", some 3, .malformed,
        .json (.obj [("k", .num 1)]), "t1", "t2"⟩ rfl).1 (Or.inr rfl)
  · exact (((mapRow_malformed_defaults
      [⟨"b", none, "d", none, .json (.arr [.str "x"]), .malformed,
        "t3", "t3"⟩]
      "b" ⟨"b", none, "d", none, .json (.arr [.str "x"]), .malformed,
        "t3", "t3"⟩ rfl).2.1 (Or.inr rfl)).1 (by decide)).1
  · exact (((mapRow_malformed_defaults
      [⟨"b", none, "d", none, .json (.arr [.str "x"]), .malformed,
        "t3", "t3"⟩]
      "b" ⟨"b", none, "d", none, .json (.arr [.str "x"]), .malformed,
        "t3", "t3"⟩ rfl).2.1 (Or.inr rfl)).1 (by decide)).2


end ContextMemory
